import Mathlib

/-!
Verification development for the medical-store backend.

The embedding models the two route handlers of `routes/medicineRoutes.js`
(the file shipped as `src/unnamed/part_000`, first document) over the
persistence schema `src/models/medicine.js`:

* `POST /` (add a medicine) — `addMedicine` below;
* `GET /check` (the availability resolution pipeline) — `resolve` below.

External collaborators are modelled explicitly:

* MongoDB reads are pure functions over a list of records
  (`dbFindOne`, `dbFindAll`), threaded through the handlers as state so
  that read-only-ness is a provable statement rather than a convention;
* the Google Gemini call is a parameter of type `Except String String`
  (error message, or raw response text), consumed exactly where the
  source awaits `generateContent`;
* `new RegExp(s, i-flag).test(t)` is modelled by a Brzozowski-derivative
  matcher `rmatch` over a pattern parsed by `parseAnchored`.  The source
  always interpolates the looked-up name into `^...$`, so whole-string
  matching of the interior is the faithful semantics.  The parser covers
  literal characters, `.`, and the postfix quantifiers `*`, `+`, `?` on
  single-character atoms; every other metacharacter makes it return
  `none`, which models the `RegExp` constructor throwing (the route's
  outer `catch` then answers 500).  Case-insensitivity (`i` flag) is
  ASCII `Char.toLower` folding, matching JS for the ASCII names used
  throughout;
* Fuse.js is a third-party dependency whose code is not part of this
  repository; its model (`fuseSearch`) is written from the spec, see its
  doc comment.

Human-readable `message` strings of the JSON bodies are elided except for
the two advisory disclaimers, which the claims mention explicitly.
-/

set_option maxRecDepth 100000

namespace MedStore

/-! ### JS regex subset: syntax, derivative matcher, parser -/

/-- Abstract syntax of the regular-expression subset used to model the
source's `new RegExp` patterns. -/
inductive JSRx : Type
  | fail
  | eps
  | lit (c : Char)
  | anyChar
  | concat (a b : JSRx)
  | alt (a b : JSRx)
  | star (a : JSRx)
  | plus (a : JSRx)
  | opt (a : JSRx)
deriving DecidableEq, Repr

/-- Does the regex accept the empty string? -/
def nullable : JSRx → Bool
  | .fail => false
  | .eps => true
  | .lit _ => false
  | .anyChar => false
  | .concat a b => nullable a && nullable b
  | .alt a b => nullable a || nullable b
  | .star _ => true
  | .plus a => nullable a
  | .opt _ => true

/-- Case-insensitive character match: the `i` flag of the source's
`new RegExp(..., 'i')`, modelled as ASCII lower-case folding. -/
def charMatchCI (c d : Char) : Bool := c.toLower = d.toLower

/-- Characters a JS `.` does not match (line terminators). -/
def isLineTerminator (d : Char) : Bool :=
  d = '\n' || d = '\r' || d = Char.ofNat 0x2028 || d = Char.ofNat 0x2029

/-- Brzozowski derivative of the regex with respect to one character,
with case-insensitive literal matching. -/
def deriv : JSRx → Char → JSRx
  | .fail, _ => .fail
  | .eps, _ => .fail
  | .lit c, d => if charMatchCI c d then .eps else .fail
  | .anyChar, d => if isLineTerminator d then .fail else .eps
  | .concat a b, d =>
      if nullable a then .alt (.concat (deriv a d) b) (deriv b d)
      else .concat (deriv a d) b
  | .alt a b, d => .alt (deriv a d) (deriv b d)
  | .star a, d => .concat (deriv a d) (.star a)
  | .plus a, d => .concat (deriv a d) (.star a)
  | .opt a, d => deriv a d

/-- Whole-string matching by iterated derivatives.  Because the source
anchors every pattern as `^...$`, `RegExp.test` on it is exactly a
whole-string match of the interior. -/
def rmatch (r : JSRx) : List Char → Bool
  | [] => nullable r
  | c :: cs => rmatch (deriv r c) cs

/-- The JS regular-expression metacharacters. -/
def regexMetachars : List Char :=
  ['^', '$', '\\', '.', '*', '+', '?', '(', ')', '[', ']',
   Char.ofNat 0x7b, Char.ofNat 0x7d, '|']

/-- Is the character special inside a JS regex pattern? -/
def isMetachar (c : Char) : Bool := regexMetachars.contains c

/-- A string free of regex metacharacters: for these, interpolation into
a pattern is literal. -/
def regexFree (s : String) : Bool := s.data.all (fun c => !(isMetachar c))

/-- One pattern atom: `.` or a literal character; any other
metacharacter in atom position is a parse failure (for `*` `+` `?` this
matches the JS "nothing to repeat" SyntaxError). -/
def atomOf (c : Char) : Option JSRx :=
  if c = '.' then some .anyChar
  else if isMetachar c then none
  else some (.lit c)

/-- Parse a pattern interior: a sequence of atoms, each optionally
followed by a postfix quantifier.  The first argument is the last
parsed atom, still waiting for a possible quantifier.  Unsupported
metacharacters yield `none`, modelling the `RegExp` constructor
throwing (for a leading quantifier this is JS's "nothing to repeat"). -/
def parseSeqAux : Option JSRx → List Char → Option JSRx
  | none, [] => some .eps
  | some a, [] => some (.concat a .eps)
  | none, c :: rest =>
    match atomOf c with
    | none => none
    | some a => parseSeqAux (some a) rest
  | some a, c :: rest =>
    if c = '*' then (parseSeqAux none rest).map (fun k => .concat (.star a) k)
    else if c = '+' then (parseSeqAux none rest).map (fun k => .concat (.plus a) k)
    else if c = '?' then (parseSeqAux none rest).map (fun k => .concat (.opt a) k)
    else
      match atomOf c with
      | none => none
      | some b => (parseSeqAux (some b) rest).map (fun k => .concat a k)

/-- Parse the interior of the source's anchored pattern
`new RegExp("^" + name + "$", "i")`. -/
def parseAnchored (name : String) : Option JSRx := parseSeqAux none name.data

/-- The regex obtained from a metacharacter-free name: the literal
character sequence. -/
def litSeq (cs : List Char) : JSRx := cs.foldr (fun c k => .concat (.lit c) k) .eps

/-! ### JS string helpers used by the route -/

/-- JS `String.prototype.toLowerCase` (ASCII folding). -/
def lowerStr (s : String) : String := String.mk (s.data.map Char.toLower)

/-- Case-insensitive string equality (equality of lower-case foldings). -/
def ciEq (a b : String) : Prop := a.data.map Char.toLower = b.data.map Char.toLower

instance (a b : String) : Decidable (ciEq a b) := by unfold ciEq; infer_instance

/-- Whitespace characters removed by JS `String.prototype.trim` (ASCII
portion). -/
def jsWhitespace (c : Char) : Bool :=
  c = ' ' || c = '\t' || c = '\n' || c = '\r' || c = '\x0b' || c = '\x0c'

/-- JS `String.prototype.trim`. -/
def trimStr (s : String) : String :=
  String.mk (((s.data.dropWhile jsWhitespace).reverse.dropWhile jsWhitespace).reverse)

/-- Helper for `splitComma`: accumulates the current chunk reversed. -/
def splitCommaAux : List Char → List Char → List String
  | [], acc => [String.mk acc.reverse]
  | c :: rest, acc =>
    if c = ',' then String.mk acc.reverse :: splitCommaAux rest []
    else splitCommaAux rest (c :: acc)

/-- JS `String.prototype.split(',')`. -/
def splitComma (s : String) : List String := splitCommaAux s.data []

/-! ### Data model (`src/models/medicine.js`) -/

/-- One stocked item, after mongoose validation: `tabletName` trimmed,
`quantityInStock` and `price` non-negative.  `createdAt` is the creation
timestamp (an abstract tick). -/
structure Medicine where
  tabletName : String
  quantityInStock : Nat
  price : Rat
  dosageFrequency : Option String := none
  usageInstructions : Option String := none
  foodWarnings : Option String := none
  createdAt : Nat := 0
deriving DecidableEq, Repr

/-! ### Persistence primitives

MongoDB reads modelled over the record list in natural (insertion)
order; each primitive returns the store state it leaves behind, so that
the handlers' effect on the store is part of their type. -/

/-- `Medicine.findOne(filter)`: first record satisfying the predicate. -/
def dbFindOne (p : Medicine → Bool) (inv : List Medicine) :
    Option Medicine × List Medicine := (inv.find? p, inv)

/-- `Medicine.find({})`: the full snapshot. -/
def dbFindAll (inv : List Medicine) : List Medicine × List Medicine := (inv, inv)

/-- `new Medicine(...).save()` when validation succeeds. -/
def dbInsert (m : Medicine) (inv : List Medicine) : List Medicine := inv ++ [m]

/-! ### Fuzzy matcher (stage 2 collaborator) -/

/-- Modelled from the spec: Fuse.js is a third-party dependency whose
code is not part of this repository, so the Fuzzy Matcher is taken from
section 4.2 of the spec: rank catalog records by a normalized
edit-distance-like dissimilarity to the query, case-insensitively,
keeping only scores within the 0.3 threshold, ordered by ascending
score with catalog order for ties.  `levenshtein` below is the metric
(classic dynamic-programming rows). -/
def levNextRowAux (x : Char) : List Char → Nat → Nat → List Nat → List Nat
  | [], _, _, _ => []
  | y :: ys, diag, left, prev =>
    match prev with
    | [] => []
    | up :: prevRest =>
      let cell := min (min (up + 1) (left + 1)) (diag + (if x = y then 0 else 1))
      cell :: levNextRowAux x ys up cell prevRest

/-- One row update of the Levenshtein dynamic program. -/
def levRow (x : Char) (ys : List Char) (prev : List Nat) : List Nat :=
  match prev with
  | [] => []
  | p0 :: rest => (p0 + 1) :: levNextRowAux x ys p0 (p0 + 1) rest

/-- Levenshtein edit distance between two character lists. -/
def levenshtein (xs ys : List Char) : Nat :=
  ((xs.foldl (fun row x => levRow x ys row) (List.range (ys.length + 1))).getLast?).getD 0

/-- Dissimilarity numerator: edit distance of the lower-case foldings. -/
def dissim (q name : String) : Nat :=
  levenshtein (lowerStr q).data (lowerStr name).data

/-- Normalization denominator of the dissimilarity score. -/
def maxLen (q name : String) : Nat := max q.data.length name.data.length

/-- Modelled from the spec: acceptance at threshold 0.3, i.e.
`dissim / maxLen ≤ 3 / 10`, written without rationals. -/
def fuzzyAccept (q name : String) : Bool :=
  10 * dissim q name ≤ 3 * maxLen q name

/-- Strict score comparison `score a < score b` by cross-multiplication. -/
def scoreLT (q : String) (a b : Medicine) : Bool :=
  dissim q a.tabletName * maxLen q b.tabletName <
    dissim q b.tabletName * maxLen q a.tabletName

/-- Stable ranked insertion: a record goes before the first
strictly-worse one, so equal scores keep catalog order. -/
def insertRanked (q : String) (m : Medicine) : List Medicine → List Medicine
  | [] => [m]
  | x :: xs => if scoreLT q m x then m :: x :: xs else x :: insertRanked q m xs

/-- Modelled from the spec: `fuse.search(name)` over the snapshot —
filter by the threshold, then rank by ascending dissimilarity, stable in
catalog order. -/
def fuseSearch (q : String) (catalog : List Medicine) : List Medicine :=
  (catalog.filter (fun m => fuzzyAccept q m.tabletName)).foldl
    (fun acc m => insertRanked q m acc) []

/-! ### The `GET /check` resolution pipeline -/

/-- The route's possible responses.  The four middle constructors are the
`ResolutionOutcome` variants (HTTP 200 with a `status` label); the others
are the failure taxonomy: `inputError` (400, missing name),
`modelError` (400, model not allow-listed), `geminiError` (502) and
`serverError` (500, the outer catch — e.g. an invalid `RegExp`
pattern). -/
inductive ResolveResult : Type
  | inputError
  | modelError
  | availableLocally (m : Medicine)
  | similarExist (suggestions : List String)
  | alternativeAvailable (m : Medicine) (disclaimer : String)
  | notAvailableAnywhere (suggestions : List String) (disclaimer : String)
  | geminiError (details : String)
  | serverError
deriving DecidableEq, Repr

/-- Is the response one of the four `ResolutionOutcome` variants (as
opposed to an error)? -/
def ResolveResult.isOutcome : ResolveResult → Bool
  | .availableLocally _ => true
  | .similarExist _ => true
  | .alternativeAvailable _ _ => true
  | .notAvailableAnywhere _ _ => true
  | _ => false

/-- Call-count instrumentation for one `GET /check` request:
`exactLookups` counts the stage-1 `findOne`, `fullScans` the
`find({})` snapshot, `fuzzySearches` the `fuse.search` invocations,
`geminiCalls` the `generateContent` calls, and `altLookups` the
per-candidate `findOne`s of the substitute stage. -/
structure Trace where
  exactLookups : Nat
  fullScans : Nat
  fuzzySearches : Nat
  geminiCalls : Nat
  altLookups : Nat
deriving DecidableEq, Repr

/-- The allow-listed Gemini model identifiers of the route file. -/
def allowedGeminiModels : List String :=
  ["gemini-2.5-flash-lite-preview-06-17", "gemini-2.0-flash-exp", "gemini-2.0-pro-exp"]

/-- `const modelToUse = model || default`: JS `||` picks the default both
when the parameter is absent and when it is the (falsy) empty string. -/
def chosenModel : Option String → String
  | none => "gemini-2.5-flash-lite-preview-06-17"
  | some s => if s = "" then "gemini-2.5-flash-lite-preview-06-17" else s

/-- Disclaimer attached to `alternative_available_locally`. -/
def altDisclaimer : String :=
  "Suggestions are informational only; consult a healthcare professional."

/-- Disclaimer attached to `not_available_anywhere`. -/
def notAvailDisclaimer : String :=
  "This information is for educational use; verify with a licensed pharmacist."

/-- The in-stock exact-match filter
`{ tabletName: new RegExp(..), quantityInStock: { $gt: 0 } }`,
given the already-constructed regex. -/
def exactInStock (r : JSRx) (m : Medicine) : Bool :=
  rmatch r m.tabletName.data && decide (0 < m.quantityInStock)

/-- Parsing of the raw Gemini reply:
`if (rawResponse && rawResponse.toLowerCase() !== "none")
   alternatives = rawResponse.split(',').map(trim).filter(Boolean)`. -/
def parseGeminiReply (raw : String) : List String :=
  if raw ≠ "" ∧ lowerStr raw ≠ "none" then
    ((splitComma raw).map trimStr).filter (fun s => s ≠ "")
  else []

/-- Result of the substitute stage's candidate loop. -/
inductive AltScan : Type
  | hit (m : Medicine)
  | exhausted
  | invalidPattern
deriving DecidableEq, Repr

/-- The `for (const alt of top3)` loop: per candidate, build the regex
(an invalid pattern throws to the outer catch), do the in-stock
`findOne`, and stop at the first hit.  Also returns the number of
`findOne` calls performed and the store state left behind. -/
def scanAlternatives : List String → List Medicine → (AltScan × Nat) × List Medicine
  | [], inv => ((.exhausted, 0), inv)
  | alt :: rest, inv =>
    match parseAnchored alt with
    | none => ((.invalidPattern, 0), inv)
    | some r =>
      match dbFindOne (exactInStock r) inv with
      | (some m, inv1) => ((.hit m, 1), inv1)
      | (none, inv1) =>
        match scanAlternatives rest inv1 with
        | ((res, n), inv2) => ((res, n + 1), inv2)

/-- The tail of the route once stages 1 and 2 have both missed: model
allow-list check, Gemini call (its result is the `gemini` parameter),
reply parsing, truncation to 3, and the candidate loop.  The traces
record the whole request, one exact lookup / full scan / fuzzy search
having already happened. -/
def substitutePhase (model : Option String) (gemini : Except String String)
    (inv : List Medicine) : (ResolveResult × Trace) × List Medicine :=
  if allowedGeminiModels.contains (chosenModel model) then
    match gemini with
    | .error details => ((.geminiError details, ⟨1, 1, 1, 1, 0⟩), inv)
    | .ok raw =>
      let top3 := (parseGeminiReply raw).take 3
      match scanAlternatives top3 inv with
      | ((.hit m, n), inv2) => ((.alternativeAvailable m altDisclaimer, ⟨1, 1, 1, 1, n⟩), inv2)
      | ((.exhausted, n), inv2) =>
        ((.notAvailableAnywhere top3 notAvailDisclaimer, ⟨1, 1, 1, 1, n⟩), inv2)
      | ((.invalidPattern, n), inv2) => ((.serverError, ⟨1, 1, 1, 1, n⟩), inv2)
  else ((.modelError, ⟨1, 1, 1, 0, 0⟩), inv)

/-- The `GET /check` handler.  `name` is the query parameter (`""`
models both an absent and an empty value, the two falsy cases of
`if (!name)`); `model` the optional model parameter; `gemini` the
behavior the external service would exhibit if called. -/
def resolve (name : String) (model : Option String)
    (gemini : Except String String) (inv : List Medicine) :
    (ResolveResult × Trace) × List Medicine :=
  if name = "" then ((.inputError, ⟨0, 0, 0, 0, 0⟩), inv)
  else
    match parseAnchored name with
    | none => ((.serverError, ⟨0, 0, 0, 0, 0⟩), inv)
    | some r =>
      match dbFindOne (exactInStock r) inv with
      | (some m, inv1) => ((.availableLocally m, ⟨1, 0, 0, 0, 0⟩), inv1)
      | (none, inv1) =>
        match dbFindAll inv1 with
        | (all, inv2) =>
          let topFuzzy := ((fuseSearch name all).take 3).map (fun m => m.tabletName)
          if topFuzzy ≠ [] then ((.similarExist topFuzzy, ⟨1, 1, 1, 0, 0⟩), inv2)
          else substitutePhase model gemini inv2

/-! ### The `POST /` add operation -/

/-- The request body of `POST /`.  `tabletName = ""` models both an
absent and an empty value (the falsy cases of `!tabletName`);
`quantityInStock = none` models `undefined`. -/
structure AddRequest where
  tabletName : String
  quantityInStock : Option Int
  price : Option Rat
  dosageFrequency : Option String := none
  usageInstructions : Option String := none
  foodWarnings : Option String := none
deriving DecidableEq, Repr

/-- Responses of `POST /`: 400 missing fields, 400 duplicate (from the
pre-check or the unique index's E11000), 500 mongoose validation
failure, 201 created. -/
inductive AddResult : Type
  | badRequest
  | duplicate
  | validationError
  | created (m : Medicine)
deriving DecidableEq, Repr

/-- The `POST /` handler: required-field check, case-sensitive
`findOne({ tabletName })` duplicate pre-check, then `save()` — mongoose
trims the string fields, validates `quantityInStock ≥ 0`, `price`
present and `≥ 0`, and the (case-sensitive) unique index rejects an
exact duplicate of the stored (trimmed) name with error code 11000,
which the handler also answers as a duplicate. -/
def addMedicine (req : AddRequest) (now : Nat) (inv : List Medicine) :
    AddResult × List Medicine :=
  if req.tabletName = "" ∨ req.quantityInStock = none then (.badRequest, inv)
  else
    match dbFindOne (fun m => m.tabletName == req.tabletName) inv with
    | (some _, inv1) => (.duplicate, inv1)
    | (none, inv1) =>
      match req.quantityInStock, req.price with
      | some q, some p =>
        if q < 0 ∨ p < 0 then (.validationError, inv1)
        else
          let newMed : Medicine :=
            ⟨trimStr req.tabletName, q.toNat, p,
             req.dosageFrequency.map trimStr,
             req.usageInstructions.map trimStr,
             req.foodWarnings.map trimStr, now⟩
          if inv1.any (fun m => m.tabletName == newMed.tabletName) then (.duplicate, inv1)
          else (.created newMed, dbInsert newMed inv1)
      | _, _ => (.validationError, inv1)

/-! ### Regex lemmas -/

theorem rmatch_fail (s : List Char) : rmatch .fail s = false := by
  induction s with
  | nil => simp [rmatch, nullable]
  | cons c cs ih => simpa [rmatch, deriv] using ih

theorem rmatch_alt (a b : JSRx) (s : List Char) :
    rmatch (.alt a b) s = (rmatch a s || rmatch b s) := by
  induction s generalizing a b with
  | nil => simp [rmatch, nullable]
  | cons c cs ih => simpa [rmatch, deriv] using ih (deriv a c) (deriv b c)

theorem rmatch_concat_fail (r : JSRx) (s : List Char) :
    rmatch (.concat .fail r) s = false := by
  induction s with
  | nil => simp [rmatch, nullable]
  | cons c cs ih => simpa [rmatch, deriv, nullable] using ih

theorem rmatch_concat_eps (r : JSRx) (s : List Char) :
    rmatch (.concat .eps r) s = rmatch r s := by
  cases s with
  | nil => simp [rmatch, nullable]
  | cons c cs =>
    show rmatch (deriv (.concat .eps r) c) cs = rmatch (deriv r c) cs
    simp [deriv, nullable, rmatch_alt, rmatch_concat_fail]

/-- A metacharacter-free pattern matches exactly the strings equal to it
up to (ASCII) letter case. -/
theorem rmatch_litSeq (cs ds : List Char) :
    rmatch (litSeq cs) ds = decide (cs.map Char.toLower = ds.map Char.toLower) := by
  induction cs generalizing ds with
  | nil =>
    cases ds with
    | nil => simp [litSeq, rmatch, nullable]
    | cons d ds => simp [litSeq, rmatch, deriv, rmatch_fail]
  | cons c cs ih =>
    cases ds with
    | nil => simp [litSeq, rmatch, nullable]
    | cons d ds =>
      show rmatch (deriv (.concat (.lit c) (litSeq cs)) d) ds = _
      by_cases h : charMatchCI c d = true
      · have hcd : c.toLower = d.toLower := by simpa [charMatchCI] using h
        simp [deriv, nullable, h, rmatch_concat_eps, ih, hcd]
      · have hcd : ¬ c.toLower = d.toLower := by simpa [charMatchCI] using h
        simp [deriv, nullable, h, rmatch_concat_fail, hcd]

/-- A character that is not a metacharacter is none of the quantifier
or dot characters. -/
theorem ne_of_not_metachar {q s : Char} (hq : isMetachar q = false)
    (hs : isMetachar s = true) : q ≠ s := by
  intro hcontra
  rw [hcontra, hs] at hq
  simp at hq

theorem parseSeqAux_of_regexFree (cs : List Char)
    (h : ∀ c ∈ cs, isMetachar c = false) :
    parseSeqAux none cs = some (litSeq cs) ∧
    ∀ a, parseSeqAux (some a) cs = some (.concat a (litSeq cs)) := by
  induction cs with
  | nil => exact ⟨rfl, fun a => rfl⟩
  | cons c rest ih =>
    have hc : isMetachar c = false := h c (by simp)
    have hcdot : c ≠ '.' :=
      ne_of_not_metachar hc (by simp [isMetachar, regexMetachars])
    have hcstar : c ≠ '*' :=
      ne_of_not_metachar hc (by simp [isMetachar, regexMetachars])
    have hcplus : c ≠ '+' :=
      ne_of_not_metachar hc (by simp [isMetachar, regexMetachars])
    have hcopt : c ≠ '?' :=
      ne_of_not_metachar hc (by simp [isMetachar, regexMetachars])
    have hatom : atomOf c = some (.lit c) := by simp [atomOf, hcdot, hc]
    obtain ⟨ih0, ih1⟩ := ih (fun a ha => h a (List.mem_cons_of_mem c ha))
    refine ⟨?_, ?_⟩
    · simp [parseSeqAux, hatom, ih1, litSeq]
    · intro a
      simp [parseSeqAux, hatom, hcstar, hcplus, hcopt, ih1, litSeq]

/-- For a metacharacter-free name, the source's anchored pattern parses
to the literal character sequence. -/
theorem parseAnchored_of_regexFree (name : String) (h : regexFree name = true) :
    parseAnchored name = some (litSeq name.data) := by
  apply (parseSeqAux_of_regexFree name.data ?_).1
  intro c hc
  have := (List.all_eq_true.mp h) c hc
  simpa using this

/-- For a metacharacter-free name, the stage-1 filter is exactly
"case-insensitively equal name and positive stock". -/
theorem exactInStock_litSeq (name : String) (m : Medicine) :
    exactInStock (litSeq name.data) m =
      (decide (ciEq m.tabletName name) && decide (0 < m.quantityInStock)) := by
  unfold exactInStock
  rw [rmatch_litSeq]
  by_cases h : ciEq m.tabletName name
  · have h2 : name.data.map Char.toLower = m.tabletName.data.map Char.toLower := h.symm
    simp [h, h2]
  · have h2 : ¬ name.data.map Char.toLower = m.tabletName.data.map Char.toLower :=
      fun hc => h hc.symm
    simp [h, h2]

/-! ### Fuzzy matcher lemmas -/

theorem mem_insertRanked (q : String) (m x : Medicine) (l : List Medicine) :
    x ∈ insertRanked q m l ↔ x = m ∨ x ∈ l := by
  induction l with
  | nil => simp [insertRanked]
  | cons a l ih =>
    by_cases h : scoreLT q m a = true
    · simp [insertRanked, h]
    · simp [insertRanked, h, ih]
      tauto

theorem mem_foldl_insertRanked (q : String) (l acc : List Medicine) (x : Medicine)
    (hx : x ∈ l.foldl (fun acc m => insertRanked q m acc) acc) :
    x ∈ acc ∨ x ∈ l := by
  induction l generalizing acc with
  | nil => exact Or.inl hx
  | cons a l ih =>
    have := ih (insertRanked q a acc) hx
    rcases this with h | h
    · rcases (mem_insertRanked q a x acc).mp h with h' | h'
      · exact Or.inr (by simp [h'])
      · exact Or.inl h'
    · exact Or.inr (by simp [h])

/-- Every fuzzy result is a record of the searched catalog. -/
theorem mem_fuseSearch (q : String) (catalog : List Medicine) (x : Medicine)
    (hx : x ∈ fuseSearch q catalog) : x ∈ catalog := by
  unfold fuseSearch at hx
  rcases mem_foldl_insertRanked q _ [] x hx with h | h
  · simp at h
  · exact (List.mem_filter.mp h).1

/-! ### Substitute-loop lemmas -/

theorem scanAlternatives_state (alts : List String) (inv : List Medicine) :
    (scanAlternatives alts inv).2 = inv := by
  induction alts generalizing inv with
  | nil => simp [scanAlternatives]
  | cons alt rest ih =>
    cases hp : parseAnchored alt with
    | none => simp [scanAlternatives, hp]
    | some r =>
      cases hf : inv.find? (exactInStock r) with
      | some m => simp [scanAlternatives, dbFindOne, hp, hf]
      | none => simp [scanAlternatives, dbFindOne, hp, hf, ih]

theorem scanAlternatives_count_le (alts : List String) (inv : List Medicine) :
    (scanAlternatives alts inv).1.2 ≤ alts.length := by
  induction alts generalizing inv with
  | nil => simp [scanAlternatives]
  | cons alt rest ih =>
    cases hp : parseAnchored alt with
    | none => simp [scanAlternatives, hp]
    | some r =>
      cases hf : inv.find? (exactInStock r) with
      | some m => simp [scanAlternatives, dbFindOne, hp, hf]
      | none =>
        have hle := ih inv
        rcases hrec : scanAlternatives rest inv with ⟨⟨res, n⟩, inv2⟩
        rw [hrec] at hle
        simp only [scanAlternatives, dbFindOne, hp, hf, hrec, List.length_cons]
        simp only at hle ⊢
        omega

/-- If every candidate has a valid pattern and an in-stock miss, the
loop exhausts the list, performing one lookup per candidate. -/
theorem scanAlternatives_exhausted (alts : List String) (inv : List Medicine)
    (h : ∀ a ∈ alts, ∃ ra, parseAnchored a = some ra ∧
      inv.find? (exactInStock ra) = none) :
    scanAlternatives alts inv = ((.exhausted, alts.length), inv) := by
  induction alts with
  | nil => simp [scanAlternatives]
  | cons alt rest ih =>
    obtain ⟨ra, hpa, hfa⟩ := h alt (by simp)
    have hrest := ih (fun a ha => h a (List.mem_cons_of_mem alt ha))
    simp [scanAlternatives, dbFindOne, hpa, hfa, hrest]

/-- If the candidates before `alt` all miss (with valid patterns) and
`alt` hits record `m`, the loop stops at `alt` with the hit, having
performed one lookup per inspected candidate. -/
theorem scanAlternatives_hit (l1 : List String) (alt : String) (l2 : List String)
    (r : JSRx) (m : Medicine) (inv : List Medicine)
    (h1 : ∀ a ∈ l1, ∃ ra, parseAnchored a = some ra ∧
      inv.find? (exactInStock ra) = none)
    (hr : parseAnchored alt = some r)
    (hm : inv.find? (exactInStock r) = some m) :
    scanAlternatives (l1 ++ alt :: l2) inv = ((.hit m, l1.length + 1), inv) := by
  induction l1 with
  | nil => simp [scanAlternatives, dbFindOne, hr, hm]
  | cons a l1' ih =>
    obtain ⟨ra, hpa, hfa⟩ := h1 a (by simp)
    have hrest := ih (fun b hb => h1 b (List.mem_cons_of_mem a hb))
    simp [scanAlternatives, dbFindOne, hpa, hfa, hrest]

/-! ### Pipeline reduction lemmas -/

theorem resolve_exact_hit (name : String) (model : Option String)
    (gemini : Except String String) (inv : List Medicine) (r : JSRx) (m : Medicine)
    (hn : name ≠ "") (hr : parseAnchored name = some r)
    (hm : inv.find? (exactInStock r) = some m) :
    resolve name model gemini inv = ((.availableLocally m, ⟨1, 0, 0, 0, 0⟩), inv) := by
  simp [resolve, dbFindOne, hn, hr, hm]

theorem resolve_similar (name : String) (model : Option String)
    (gemini : Except String String) (inv : List Medicine) (r : JSRx)
    (hn : name ≠ "") (hr : parseAnchored name = some r)
    (hmiss : inv.find? (exactInStock r) = none)
    (hfz : fuseSearch name inv ≠ []) :
    resolve name model gemini inv =
      ((.similarExist (((fuseSearch name inv).take 3).map (fun m => m.tabletName)),
        ⟨1, 1, 1, 0, 0⟩), inv) := by
  cases hcase : fuseSearch name inv with
  | nil => exact absurd hcase hfz
  | cons a l => simp [resolve, dbFindOne, dbFindAll, hn, hr, hmiss, hcase]

theorem resolve_substitute (name : String) (model : Option String)
    (gemini : Except String String) (inv : List Medicine) (r : JSRx)
    (hn : name ≠ "") (hr : parseAnchored name = some r)
    (hmiss : inv.find? (exactInStock r) = none)
    (hfz : fuseSearch name inv = []) :
    resolve name model gemini inv = substitutePhase model gemini inv := by
  simp [resolve, dbFindOne, dbFindAll, hn, hr, hmiss, hfz]

/-- The per-candidate lookup of the substitute stage, as one function:
pattern construction followed by the in-stock `findOne`. -/
def candidateHit (inv : List Medicine) (alt : String) : Option Medicine :=
  (parseAnchored alt).bind (fun r => inv.find? (exactInStock r))

theorem substitutePhase_badModel (model : Option String)
    (gemini : Except String String) (inv : List Medicine)
    (hmodel : allowedGeminiModels.contains (chosenModel model) = false) :
    substitutePhase model gemini inv = ((.modelError, ⟨1, 1, 1, 0, 0⟩), inv) := by
  simp only [substitutePhase, hmodel]
  simp

theorem substitutePhase_error (model : Option String) (details : String)
    (inv : List Medicine)
    (hmodel : allowedGeminiModels.contains (chosenModel model) = true) :
    substitutePhase model (.error details) inv =
      ((.geminiError details, ⟨1, 1, 1, 1, 0⟩), inv) := by
  simp only [substitutePhase, hmodel]
  simp

theorem substitutePhase_ok (model : Option String) (raw : String)
    (inv : List Medicine)
    (hmodel : allowedGeminiModels.contains (chosenModel model) = true) :
    substitutePhase model (.ok raw) inv =
      (match scanAlternatives ((parseGeminiReply raw).take 3) inv with
       | ((.hit m, n), inv2) =>
         ((.alternativeAvailable m altDisclaimer, ⟨1, 1, 1, 1, n⟩), inv2)
       | ((.exhausted, n), inv2) =>
         ((.notAvailableAnywhere ((parseGeminiReply raw).take 3) notAvailDisclaimer,
           ⟨1, 1, 1, 1, n⟩), inv2)
       | ((.invalidPattern, n), inv2) => ((.serverError, ⟨1, 1, 1, 1, n⟩), inv2)) := by
  simp only [substitutePhase, hmodel]
  simp

theorem substitutePhase_altLookups (model : Option String) (raw : String)
    (inv : List Medicine)
    (hmodel : allowedGeminiModels.contains (chosenModel model) = true) :
    (substitutePhase model (.ok raw) inv).1.2.altLookups =
      (scanAlternatives ((parseGeminiReply raw).take 3) inv).1.2 := by
  rw [substitutePhase_ok model raw inv hmodel]
  rcases hrec : scanAlternatives ((parseGeminiReply raw).take 3) inv with ⟨⟨res, n⟩, inv2⟩
  cases res <;> simp

theorem substitutePhase_state (model : Option String) (gemini : Except String String)
    (inv : List Medicine) : (substitutePhase model gemini inv).2 = inv := by
  unfold substitutePhase
  split
  · cases gemini with
    | error d => simp
    | ok raw =>
      have hstate := scanAlternatives_state ((parseGeminiReply raw).take 3) inv
      rcases hrec : scanAlternatives ((parseGeminiReply raw).take 3) inv with ⟨⟨res, n⟩, inv2⟩
      rw [hrec] at hstate
      have hstate2 : inv2 = inv := hstate
      cases res <;> simp [hrec, hstate2]
  · simp

/-! ### Claims -/

/-- C1, counterexample.  The claim quantifies over every query whose name
equals an inventory record's name case-insensitively with positive
stock; for the name `a+` (equal to a stocked record's name, but a regex
quantifier once interpolated) the exact stage misses and the pipeline
answers from the fuzzy stage instead of returning `AvailableLocally`,
with the fuzzy matcher invoked once. -/
theorem C1_counterexample :
    ciEq (Medicine.mk "a+" 5 1 none none none 0).tabletName "a+" ∧
    0 < (Medicine.mk "a+" 5 1 none none none 0).quantityInStock ∧
    (resolve "a+" none (.ok "none") [Medicine.mk "a+" 5 1 none none none 0]).1.1 =
      .similarExist ["a+"] ∧
    (resolve "a+" none (.ok "none") [Medicine.mk "a+" 5 1 none none none 0]).1.2.fuzzySearches
      = 1 := by
  decide

/-- C1, amended: for every query with a non-empty,
metacharacter-free name that matches the name of an inventory record
case-insensitively where that record has strictly positive stock, the
pipeline returns `AvailableLocally` carrying a record so matched (the
first one in the store), and neither the fuzzy stage nor the substitute
stage is invoked. -/
theorem C1_exact_stage (name : String) (model : Option String)
    (gemini : Except String String) (inv : List Medicine) (m : Medicine)
    (hn : name ≠ "") (hfree : regexFree name = true)
    (hm : m ∈ inv) (heq : ciEq m.tabletName name) (hstock : 0 < m.quantityInStock) :
    ∃ m2, (resolve name model gemini inv).1.1 = .availableLocally m2 ∧
      m2 ∈ inv ∧ ciEq m2.tabletName name ∧ 0 < m2.quantityInStock ∧
      (resolve name model gemini inv).1.2.fuzzySearches = 0 ∧
      (resolve name model gemini inv).1.2.geminiCalls = 0 ∧
      (resolve name model gemini inv).1.2.altLookups = 0 := by
  have hr := parseAnchored_of_regexFree name hfree
  have hpred : exactInStock (litSeq name.data) m = true := by
    rw [exactInStock_litSeq]
    simp [heq, hstock]
  have hsome : (inv.find? (exactInStock (litSeq name.data))).isSome :=
    List.find?_isSome.mpr ⟨m, hm, hpred⟩
  obtain ⟨m2, hm2⟩ := Option.isSome_iff_exists.mp hsome
  have hmem : m2 ∈ inv := List.mem_of_find?_eq_some hm2
  have hpred2 : exactInStock (litSeq name.data) m2 = true := List.find?_some hm2
  rw [exactInStock_litSeq] at hpred2
  have hps : ciEq m2.tabletName name ∧ 0 < m2.quantityInStock := by simpa using hpred2
  rw [resolve_exact_hit name model gemini inv _ m2 hn hr hm2]
  exact ⟨m2, rfl, hmem, hps.1, hps.2, rfl, rfl, rfl⟩

/-- C1, witness (spec Scenario A): inventory holds Paracetamol with
stock 10, query `paracetamol`. -/
theorem C1_exact_stage_witness :
    ∃ m2, (resolve "paracetamol" none (.ok "x")
        [Medicine.mk "Paracetamol" 10 1 none none none 0]).1.1 =
      .availableLocally m2 ∧
      m2 ∈ [Medicine.mk "Paracetamol" 10 1 none none none 0] ∧
      ciEq m2.tabletName "paracetamol" ∧ 0 < m2.quantityInStock ∧
      (resolve "paracetamol" none (.ok "x")
        [Medicine.mk "Paracetamol" 10 1 none none none 0]).1.2.fuzzySearches = 0 ∧
      (resolve "paracetamol" none (.ok "x")
        [Medicine.mk "Paracetamol" 10 1 none none none 0]).1.2.geminiCalls = 0 ∧
      (resolve "paracetamol" none (.ok "x")
        [Medicine.mk "Paracetamol" 10 1 none none none 0]).1.2.altLookups = 0 :=
  C1_exact_stage "paracetamol" none (.ok "x")
    [Medicine.mk "Paracetamol" 10 1 none none none 0]
    (Medicine.mk "Paracetamol" 10 1 none none none 0)
    (by decide) (by decide) (by decide) (by decide) (by decide)

/-- C2: for every query that misses the exact stage, a non-empty fuzzy
result makes the pipeline return `SimilarExistInStock` carrying at most
3 names, each present verbatim as a record name in the catalog snapshot
irrespective of stock; in particular (second conjunct, spec Scenario B)
an inventory holding only a zero-stock `Paracetamol` record still
yields `SimilarExistInStock ["Paracetamol"]` for the query
`Paracetamol`. -/
theorem C2_fuzzy_stage :
    (∀ (name : String) (model : Option String) (gemini : Except String String)
        (inv : List Medicine) (r : JSRx),
      name ≠ "" → parseAnchored name = some r →
      inv.find? (exactInStock r) = none → fuseSearch name inv ≠ [] →
      (resolve name model gemini inv).1.1 =
        .similarExist (((fuseSearch name inv).take 3).map (fun m => m.tabletName)) ∧
      (((fuseSearch name inv).take 3).map (fun m => m.tabletName)).length ≤ 3 ∧
      (∀ s ∈ ((fuseSearch name inv).take 3).map (fun m => m.tabletName),
        ∃ m ∈ inv, m.tabletName = s)) ∧
    (resolve "Paracetamol" none (.ok "x")
        [Medicine.mk "Paracetamol" 0 1 none none none 0]).1.1 =
      .similarExist ["Paracetamol"] := by
  constructor
  · intro name model gemini inv r hn hr hmiss hfz
    refine ⟨?_, ?_, ?_⟩
    · rw [resolve_similar name model gemini inv r hn hr hmiss hfz]
    · rw [List.length_map]
      exact (fuseSearch name inv).length_take_le 3
    · intro s hs
      obtain ⟨m, hm, hms⟩ := List.mem_map.mp hs
      exact ⟨m, mem_fuseSearch name inv m (List.take_subset 3 _ hm), hms⟩
  · decide

/-- C2, witness: the general conjunct applied at spec Scenario B. -/
theorem C2_fuzzy_stage_witness :
    (resolve "Paracetamol" none (.ok "x")
        [Medicine.mk "Paracetamol" 0 1 none none none 0]).1.1 =
      .similarExist (((fuseSearch "Paracetamol"
          [Medicine.mk "Paracetamol" 0 1 none none none 0]).take 3).map
        (fun m => m.tabletName)) ∧
    (((fuseSearch "Paracetamol"
        [Medicine.mk "Paracetamol" 0 1 none none none 0]).take 3).map
      (fun m => m.tabletName)).length ≤ 3 ∧
    (∀ s ∈ ((fuseSearch "Paracetamol"
        [Medicine.mk "Paracetamol" 0 1 none none none 0]).take 3).map
      (fun m => m.tabletName),
      ∃ m ∈ [Medicine.mk "Paracetamol" 0 1 none none none 0], m.tabletName = s) :=
  C2_fuzzy_stage.1 "Paracetamol" none (.ok "x")
    [Medicine.mk "Paracetamol" 0 1 none none none 0]
    (litSeq "Paracetamol".data) (by decide) (by decide) (by decide) (by decide)

/-- C3, counterexample.  The claim promises `NotAvailableAnywhere` when
every candidate misses; over the empty inventory the suggested candidate
`(` has no in-stock record (its lookup is a miss), yet the pipeline
answers the internal server error instead, because interpolating `(`
into the pattern makes the `RegExp` constructor throw. -/
theorem C3_counterexample :
    parseGeminiReply "(" = ["("] ∧
    candidateHit [] "(" = none ∧
    (resolve "Tylenol" none (.ok "(") []).1.1 = .serverError := by
  decide

/-- C3, amended: in the substitute stage at most 3 candidate names are
inspected, each checked in the suggester's order with the same exact
in-stock predicate as stage 1, provided every inspected candidate forms
a valid pattern: the first candidate whose lookup hits yields
`AlternativeAvailableLocally` with that record and the advisory
disclaimer, and if every candidate's lookup misses the pipeline returns
`NotAvailableAnywhere` with the candidate list and the disclaimer (a
candidate whose pattern is invalid instead aborts with the internal
server error). -/
theorem C3_substitute_stage (name : String) (model : Option String) (raw : String)
    (inv : List Medicine) (r : JSRx)
    (hn : name ≠ "") (hr : parseAnchored name = some r)
    (hmiss : inv.find? (exactInStock r) = none)
    (hfz : fuseSearch name inv = [])
    (hmodel : allowedGeminiModels.contains (chosenModel model) = true)
    (hvalid : ∀ a ∈ (parseGeminiReply raw).take 3, (parseAnchored a).isSome) :
    ((parseGeminiReply raw).take 3).length ≤ 3 ∧
    (resolve name model (.ok raw) inv).1.2.altLookups ≤ 3 ∧
    (∀ (l1 : List String) (alt : String) (l2 : List String) (ra : JSRx) (m2 : Medicine),
      (parseGeminiReply raw).take 3 = l1 ++ alt :: l2 →
      (∀ a ∈ l1, candidateHit inv a = none) →
      parseAnchored alt = some ra → inv.find? (exactInStock ra) = some m2 →
      (resolve name model (.ok raw) inv).1.1 = .alternativeAvailable m2 altDisclaimer ∧
      (resolve name model (.ok raw) inv).1.2.altLookups = l1.length + 1) ∧
    ((∀ a ∈ (parseGeminiReply raw).take 3, candidateHit inv a = none) →
      (resolve name model (.ok raw) inv).1.1 =
        .notAvailableAnywhere ((parseGeminiReply raw).take 3) notAvailDisclaimer ∧
      (resolve name model (.ok raw) inv).1.2.altLookups =
        ((parseGeminiReply raw).take 3).length) := by
  have hres : resolve name model (.ok raw) inv = substitutePhase model (.ok raw) inv :=
    resolve_substitute name model (.ok raw) inv r hn hr hmiss hfz
  refine ⟨(parseGeminiReply raw).length_take_le 3, ?_, ?_, ?_⟩
  · rw [hres, substitutePhase_altLookups model raw inv hmodel]
    exact le_trans (scanAlternatives_count_le _ inv)
      ((parseGeminiReply raw).length_take_le 3)
  · intro l1 alt l2 ra m2 hsplit hl1 hpa hfind
    have hl1' : ∀ a ∈ l1, ∃ rb, parseAnchored a = some rb ∧
        inv.find? (exactInStock rb) = none := by
      intro a ha
      have hmem : a ∈ (parseGeminiReply raw).take 3 := by
        rw [hsplit]
        exact List.mem_append_left _ ha
      obtain ⟨rb, hrb⟩ := Option.isSome_iff_exists.mp (hvalid a hmem)
      refine ⟨rb, hrb, ?_⟩
      have hnone := hl1 a ha
      rw [candidateHit, hrb] at hnone
      simpa using hnone
    have hscan := scanAlternatives_hit l1 alt l2 ra m2 inv hl1' hpa hfind
    rw [hres, substitutePhase_ok model raw inv hmodel, hsplit, hscan]
    exact ⟨rfl, rfl⟩
  · intro hall
    have hall' : ∀ a ∈ (parseGeminiReply raw).take 3, ∃ rb, parseAnchored a = some rb ∧
        inv.find? (exactInStock rb) = none := by
      intro a ha
      obtain ⟨rb, hrb⟩ := Option.isSome_iff_exists.mp (hvalid a ha)
      refine ⟨rb, hrb, ?_⟩
      have hnone := hall a ha
      rw [candidateHit, hrb] at hnone
      simpa using hnone
    have hscan := scanAlternatives_exhausted ((parseGeminiReply raw).take 3) inv hall'
    rw [hres, substitutePhase_ok model raw inv hmodel, hscan]
    exact ⟨rfl, rfl⟩

/-- C3, witness (spec Scenario C): inventory holds Ibuprofen with stock
5, query `Tylenol`, suggester reply `Paracetamol, Ibuprofen`; the first
candidate misses, the second hits. -/
theorem C3_substitute_stage_witness :
    (resolve "Tylenol" none (.ok "Paracetamol, Ibuprofen")
        [Medicine.mk "Ibuprofen" 5 1 none none none 0]).1.1 =
      .alternativeAvailable (Medicine.mk "Ibuprofen" 5 1 none none none 0)
        altDisclaimer ∧
    (resolve "Tylenol" none (.ok "Paracetamol, Ibuprofen")
        [Medicine.mk "Ibuprofen" 5 1 none none none 0]).1.2.altLookups = 2 := by
  have h := C3_substitute_stage "Tylenol" none "Paracetamol, Ibuprofen"
    [Medicine.mk "Ibuprofen" 5 1 none none none 0] (litSeq "Tylenol".data)
    (by decide) (by decide) (by decide) (by decide) (by decide) (by decide)
  have h2 := h.2.2.1 ["Paracetamol"] "Ibuprofen" [] (litSeq "Ibuprofen".data)
    (Medicine.mk "Ibuprofen" 5 1 none none none 0)
    (by decide) (by decide) (by decide) (by decide)
  exact ⟨h2.1, by simpa using h2.2⟩

/-- C4, counterexample.  The claim demands an `InputError` for every
off-list model identifier, for all inventory contents; but the
allow-list check only runs once the substitute stage is about to, so an
inventory holding an exact in-stock match for the query returns
`AvailableLocally` despite the off-list model `gpt-4`. -/
theorem C4_counterexample :
    allowedGeminiModels.contains (chosenModel (some "gpt-4")) = false ∧
    (resolve "Paracetamol" (some "gpt-4") (.ok "none")
        [Medicine.mk "Paracetamol" 10 1 none none none 0]).1.1 =
      .availableLocally (Medicine.mk "Paracetamol" 10 1 none none none 0) := by
  decide

/-- C4, amended: for every query carrying a non-empty model identifier
outside the allow-listed set, if the exact stage misses and the fuzzy
stage finds nothing, the pipeline yields the invalid-model input error
and zero calls are made to the suggestion service, for all inventories
meeting those conditions and all suggester behaviors. -/
theorem C4_model_allowlist (name s : String) (gemini : Except String String)
    (inv : List Medicine) (r : JSRx)
    (hn : name ≠ "") (hr : parseAnchored name = some r)
    (hmiss : inv.find? (exactInStock r) = none)
    (hfz : fuseSearch name inv = [])
    (hs : s ≠ "") (hbad : allowedGeminiModels.contains s = false) :
    (resolve name (some s) gemini inv).1.1 = .modelError ∧
    (resolve name (some s) gemini inv).1.2.geminiCalls = 0 := by
  have hchosen : chosenModel (some s) = s := by simp [chosenModel, hs]
  have hmodel : allowedGeminiModels.contains (chosenModel (some s)) = false := by
    rw [hchosen]
    exact hbad
  rw [resolve_substitute name (some s) gemini inv r hn hr hmiss hfz,
    substitutePhase_badModel (some s) gemini inv hmodel]
  exact ⟨rfl, rfl⟩

/-- C4, witness: empty inventory, query `Aspirin`, model `gpt-4`. -/
theorem C4_model_allowlist_witness :
    (resolve "Aspirin" (some "gpt-4") (.ok "x") []).1.1 = .modelError ∧
    (resolve "Aspirin" (some "gpt-4") (.ok "x") []).1.2.geminiCalls = 0 :=
  C4_model_allowlist "Aspirin" "gpt-4" (.ok "x") [] (litSeq "Aspirin".data)
    (by decide) (by decide) (by decide) (by decide) (by decide) (by decide)

/-- C5, counterexample.  The claim covers whitespace-only query names,
but the route's validation is JS falsiness (`if (!name)`), which a
whitespace-only name passes: with the single-space name (shown
whitespace-only by its empty trim) the stages run — one exact lookup
happens and it even returns `AvailableLocally` for a store holding a
record named by a single space. -/
theorem C5_counterexample :
    trimStr " " = "" ∧
    (resolve " " none (.ok "x") [Medicine.mk " " 1 1 none none none 0]).1.1 =
      .availableLocally (Medicine.mk " " 1 1 none none none 0) ∧
    (resolve " " none (.ok "x")
        [Medicine.mk " " 1 1 none none none 0]).1.2.exactLookups = 1 := by
  decide

/-- C5, amended: for every query whose name is empty, the pipeline
reports the input error and runs no stages — no inventory lookup, no
fuzzy search and no suggestion-service call occur, and the store is
untouched; whitespace-only (non-empty) names are not rejected and
proceed through the stages. -/
theorem C5_empty_name (model : Option String) (gemini : Except String String)
    (inv : List Medicine) :
    resolve "" model gemini inv = ((.inputError, ⟨0, 0, 0, 0, 0⟩), inv) := rfl

/-- C6: whenever the suggestion service replies with the literal token
`none` in any letter case (its lower-case folding is `none`), the
pipeline treats it as zero candidates and returns `NotAvailableAnywhere`
with the empty candidate list — a normal outcome, not a stage
failure. -/
theorem C6_none_token (name : String) (model : Option String) (raw : String)
    (inv : List Medicine) (r : JSRx)
    (hn : name ≠ "") (hr : parseAnchored name = some r)
    (hmiss : inv.find? (exactInStock r) = none)
    (hfz : fuseSearch name inv = [])
    (hmodel : allowedGeminiModels.contains (chosenModel model) = true)
    (hraw : lowerStr raw = "none") :
    (resolve name model (.ok raw) inv).1.1 =
      .notAvailableAnywhere [] notAvailDisclaimer ∧
    (resolve name model (.ok raw) inv).1.1.isOutcome = true := by
  have hreply : parseGeminiReply raw = [] := by
    simp [parseGeminiReply, hraw]
  have hscan : scanAlternatives (([] : List String).take 3) inv =
      ((.exhausted, 0), inv) := rfl
  rw [resolve_substitute name model (.ok raw) inv r hn hr hmiss hfz,
    substitutePhase_ok model raw inv hmodel, hreply]
  exact ⟨rfl, rfl⟩

/-- C6, witness (spec Scenario D): empty inventory, query `Aspirin`,
reply `None`. -/
theorem C6_none_token_witness :
    (resolve "Aspirin" none (.ok "None") []).1.1 =
      .notAvailableAnywhere [] notAvailDisclaimer ∧
    (resolve "Aspirin" none (.ok "None") []).1.1.isOutcome = true :=
  C6_none_token "Aspirin" none "None" [] (litSeq "Aspirin".data)
    (by decide) (by decide) (by decide) (by decide) (by decide) (by decide)

/-- C7: when the suggestion service fails during the substitute stage,
the pipeline surfaces the 502 service error carrying the diagnostic,
which is distinct from every `ResolutionOutcome` variant — no
resolution outcome is returned. -/
theorem C7_gemini_failure (name : String) (model : Option String) (details : String)
    (inv : List Medicine) (r : JSRx)
    (hn : name ≠ "") (hr : parseAnchored name = some r)
    (hmiss : inv.find? (exactInStock r) = none)
    (hfz : fuseSearch name inv = [])
    (hmodel : allowedGeminiModels.contains (chosenModel model) = true) :
    (resolve name model (.error details) inv).1.1 = .geminiError details ∧
    (resolve name model (.error details) inv).1.1.isOutcome = false := by
  rw [resolve_substitute name model (.error details) inv r hn hr hmiss hfz,
    substitutePhase_error model details inv hmodel]
  exact ⟨rfl, rfl⟩

/-- C7, witness (spec Scenario E): empty inventory, query `Aspirin`,
suggester failure `auth failure`. -/
theorem C7_gemini_failure_witness :
    (resolve "Aspirin" none (.error "auth failure") []).1.1 =
      .geminiError "auth failure" ∧
    (resolve "Aspirin" none (.error "auth failure") []).1.1.isOutcome = false :=
  C7_gemini_failure "Aspirin" none "auth failure" [] (litSeq "Aspirin".data)
    (by decide) (by decide) (by decide) (by decide) (by decide)

/-- C8, counterexample.  The claim demands case-insensitive uniqueness,
but the duplicate pre-check (`findOne({ tabletName })`) and the unique
index are case-sensitive: adding `PARACETAMOL` next to the existing
`Paracetamol` (equal up to letter case) is accepted and the store
grows. -/
theorem C8_counterexample :
    ciEq "PARACETAMOL" "Paracetamol" ∧
    (addMedicine (AddRequest.mk "PARACETAMOL" (some 5) (some 1) none none none) 0
        [Medicine.mk "Paracetamol" 10 1 none none none 0]).1 =
      .created (Medicine.mk "PARACETAMOL" 5 1 none none none 0) ∧
    (addMedicine (AddRequest.mk "PARACETAMOL" (some 5) (some 1) none none none) 0
        [Medicine.mk "Paracetamol" 10 1 none none none 0]).2 =
      [Medicine.mk "Paracetamol" 10 1 none none none 0,
       Medicine.mk "PARACETAMOL" 5 1 none none none 0] := by
  decide

/-- C8, amended: record names are unique case-sensitively: for every
add request naming a tablet exactly equal to an existing record's name
(and passing the required-field check), the add operation rejects the
request as a duplicate and the store is unchanged. -/
theorem C8_duplicate_exact (req : AddRequest) (now : Nat) (inv : List Medicine)
    (m : Medicine) (hname : req.tabletName ≠ "")
    (hq : req.quantityInStock ≠ none)
    (hm : m ∈ inv) (heq : m.tabletName = req.tabletName) :
    addMedicine req now inv = (.duplicate, inv) := by
  have hsome : (inv.find? (fun m2 => m2.tabletName == req.tabletName)).isSome :=
    List.find?_isSome.mpr ⟨m, hm, by simp [heq]⟩
  obtain ⟨m2, hm2⟩ := Option.isSome_iff_exists.mp hsome
  simp [addMedicine, dbFindOne, hname, hq, hm2]

/-- C8, witness: re-adding `Paracetamol` with the exact same spelling is
rejected and the store is unchanged. -/
theorem C8_duplicate_exact_witness :
    addMedicine (AddRequest.mk "Paracetamol" (some 5) (some 1) none none none) 0
        [Medicine.mk "Paracetamol" 10 1 none none none 0] =
      (.duplicate, [Medicine.mk "Paracetamol" 10 1 none none none 0]) :=
  C8_duplicate_exact (AddRequest.mk "Paracetamol" (some 5) (some 1) none none none) 0
    [Medicine.mk "Paracetamol" 10 1 none none none 0]
    (Medicine.mk "Paracetamol" 10 1 none none none 0)
    (by decide) (by decide) (by decide) (by decide)

/-- C9: the resolution pipeline never modifies the inventory — for
every query, model, suggester behavior and store contents, the store
after `resolve` is exactly the store before, in every outcome and error
branch (every record, hence every field of every record, is
unchanged). -/
theorem C9_resolve_readonly (name : String) (model : Option String)
    (gemini : Except String String) (inv : List Medicine) :
    (resolve name model gemini inv).2 = inv := by
  by_cases hn : name = ""
  · simp [resolve, hn]
  · cases hp : parseAnchored name with
    | none => simp [resolve, hn, hp]
    | some r =>
      cases hf : inv.find? (exactInStock r) with
      | some m => simp [resolve, dbFindOne, hn, hp, hf]
      | none =>
        cases hcase : fuseSearch name inv with
        | cons a l => simp [resolve, dbFindOne, dbFindAll, hn, hp, hf, hcase]
        | nil =>
          rw [resolve_substitute name model gemini inv r hn hp hf hcase]
          exact substitutePhase_state model gemini inv

/-- C10: the exact-match predicate used by the exact stage and by the
substitute stage's per-candidate lookup interpolates the looked-up name
into an anchored pattern; for every metacharacter-free name the
resulting pattern holds of a record exactly when the record's tablet
name equals the name up to letter case (first conjunct), and the
equivalence is guaranteed only for such names: for the name `a+`, a
record carrying the very same tablet name fails the predicate (second
conjunct). -/
theorem C10_regex_predicate :
    (∀ name : String, regexFree name = true →
      ∃ r, parseAnchored name = some r ∧
        ∀ m : Medicine, (rmatch r m.tabletName.data = true ↔ ciEq m.tabletName name)) ∧
    (∃ r, parseAnchored "a+" = some r ∧
      ciEq (Medicine.mk "a+" 5 1 none none none 0).tabletName "a+" ∧
      rmatch r (Medicine.mk "a+" 5 1 none none none 0).tabletName.data = false) := by
  constructor
  · intro name hfree
    refine ⟨litSeq name.data, parseAnchored_of_regexFree name hfree, ?_⟩
    intro m
    rw [rmatch_litSeq]
    constructor
    · intro h
      exact (of_decide_eq_true h).symm
    · intro h
      exact decide_eq_true h.symm
  · exact ⟨.concat (.plus (.lit 'a')) .eps, by decide, by decide, by decide⟩

/-- C10, witness: the first conjunct applied at the metacharacter-free
name `Paracetamol`. -/
theorem C10_regex_predicate_witness :
    ∃ r, parseAnchored "Paracetamol" = some r ∧
      ∀ m : Medicine,
        (rmatch r m.tabletName.data = true ↔ ciEq m.tabletName "Paracetamol") :=
  C10_regex_predicate.1 "Paracetamol" (by decide)

end MedStore
